import Mathlib

/-!
Shallow embedding of the PhotoText document model (TypeScript source:
phototext library, main model file).  Pure data is translated to Lean
structures and inductives; the throwing constructors and the throwing
deserializers are modelled with `Except PTError`; the mutating stack
algorithm of `HierarchicalDocument.fromPhotoDocument` is modelled by
explicit state passing where a part collects its sub parts when it is
popped from the level stack (in the source, sub parts are attached to the
parent object at creation time and then mutated in place through the
stack reference; attaching the finished child at pop time builds the very
same tree, since a part only receives content and children while it is on
the stack).  The `created`, `modified` (wall clock `Date`) and free form
`metadata` fields are omitted: no claim mentions them and they carry no
structural content.
-/

namespace Phototext

/-- Error taxonomy of the library.  The source throws plain `Error`
objects; the two kinds are distinguished by their message text, which is
kept verbatim in the payload. -/
inductive PTError where
  | validationError (msg : String)
  | unknownBlockType (msg : String)
deriving DecidableEq

-- ==================== INLINE ELEMENTS ====================

/-- `InlineType` enum of the source (`text`, `bold`, `italic`, `bold_italic`). -/
inductive InlineType where
  | text
  | bold
  | italic
  | boldItalic
deriving DecidableEq

/-- `InlineSpan`: a run of text with one style. -/
structure InlineSpan where
  text : String
  style : InlineType
deriving DecidableEq

/-- One global single character replacement pass, modelling a
`.replace(/c/g, r)` call on the character list of a string. -/
def replaceAllChar (c : Char) (r : List Char) : List Char → List Char
  | [] => []
  | x :: xs => (if x = c then r else [x]) ++ replaceAllChar c r xs

/-- The escape chain of `InlineSpan.toHTML`: replace all of
ampersand, then lt, then gt, then double quote, in that order. -/
def escapeHTML (s : String) : String :=
  String.mk (replaceAllChar '"' "&quot;".data
    (replaceAllChar '>' "&gt;".data
      (replaceAllChar '<' "&lt;".data
        (replaceAllChar '&' "&amp;".data s.data))))

/-- `InlineSpan.toHTML`: escape the text, then wrap in the style
specific tags. -/
def InlineSpan.toHTML (s : InlineSpan) : String :=
  let escapedText := escapeHTML s.text
  match s.style with
  | InlineType.bold => "<strong>" ++ escapedText ++ "</strong>"
  | InlineType.italic => "<em>" ++ escapedText ++ "</em>"
  | InlineType.boldItalic => "<strong><em>" ++ escapedText ++ "</em></strong>"
  | InlineType.text => escapedText

-- ==================== BLOCK ELEMENTS ====================

/-- `ImageBlock`: image reference by opaque id, with optional caption
and alt text. -/
structure ImageBlock where
  imageId : String
  caption : Option String
  alt : Option String
deriving DecidableEq

/-- The `Block` tagged union (`HeadingBlock`, `ParagraphBlock`,
`ListBlock`, `ImageBlock`).  The heading level is carried as an integer;
the validated range 1..6 is enforced by `HeadingBlock.construct`. -/
inductive Block where
  | heading (level : Int) (content : List InlineSpan)
  | paragraph (content : List InlineSpan)
  | list (items : List (List InlineSpan))
  | image (img : ImageBlock)
deriving DecidableEq

/-- The `HeadingBlock` constructor: throws unless `1 <= level <= 6`. -/
def HeadingBlock.construct (level : Int) (content : List InlineSpan) :
    Except PTError Block :=
  if level < 1 ∨ level > 6 then
    .error (.validationError ("Heading level must be 1-6, got " ++ toString level))
  else
    .ok (.heading level content)

/-- Models the JavaScript `a || b || deflt` fall through on optional
strings: an absent or empty string is falsy. -/
def orFalsy : Option String → String → String
  | some s, d => if s = "" then d else s
  | none, d => d

/-- The url used by `ImageBlock.toHTML`: the injected resolver applied
to the image id, or the placeholder hash reference. -/
def resolveUrl (imageUrlResolver : Option (String → String))
    (imageId : String) : String :=
  match imageUrlResolver with
  | some f => f imageId
  | none => "#" ++ imageId

/-- The img tag emitted by `ImageBlock.toHTML`. -/
def imgTagStr (url altText imageId : String) : String :=
  "<img src=\"" ++ url ++ "\" alt=\"" ++ altText ++
    "\" data-image-id=\"" ++ imageId ++ "\">"

/-- `ImageBlock.toHTML`: resolve the url through the injected resolver
(or a placeholder hash reference), pick alt text as alt, else caption,
else empty, and wrap in a figure when a caption is present.  None of the
inserted strings is HTML escaped. -/
def ImageBlock.toHTML (b : ImageBlock)
    (imageUrlResolver : Option (String → String)) : String :=
  let url := resolveUrl imageUrlResolver b.imageId
  let altText := orFalsy b.alt (orFalsy b.caption "")
  let imgTag := imgTagStr url altText b.imageId
  match b.caption with
  | some c =>
      if c = "" then imgTag
      else "<figure>\n  " ++ imgTag ++ "\n  <figcaption>" ++ c ++
        "</figcaption>\n</figure>"
  | none => imgTag

-- ==================== FLAT DOCUMENT ====================

/-- `PhotoDocument`: title, optional description, ordered block list. -/
structure PhotoDocument where
  title : String
  description : Option String
  blocks : List Block
deriving DecidableEq

-- ==================== HIERARCHICAL DOCUMENT ====================

/-- `DocumentPart`: heading spans, content blocks, sub parts.  The
`parent` back reference of the source is not stored; the ancestor count
a part would observe through it is supplied explicitly where needed
(`DocumentPart.level`). -/
inductive DocumentPart where
  | mk (heading : List InlineSpan) (content : List Block)
      (subParts : List DocumentPart)

def DocumentPart.heading : DocumentPart → List InlineSpan
  | .mk h _ _ => h

def DocumentPart.content : DocumentPart → List Block
  | .mk _ c _ => c

def DocumentPart.subParts : DocumentPart → List DocumentPart
  | .mk _ _ s => s

/-- The derived `level` getter: 1 plus the number of ancestors, capped
at 6 (HTML only supports H1-H6). -/
def DocumentPart.level (ancestors : Nat) : Int :=
  min ((ancestors : Int) + 1) 6

/-- `addSubPart`: append a nested section (the source also sets the
child back reference, which is implicit here). -/
def DocumentPart.addSubPart (parent child : DocumentPart) : DocumentPart :=
  DocumentPart.mk parent.heading parent.content (parent.subParts ++ [child])

/-- `addContent`: append a content block; headings are rejected. -/
def DocumentPart.addContent (p : DocumentPart) (b : Block) :
    Except PTError DocumentPart :=
  match b with
  | .heading _ _ =>
      .error (.validationError
        "Headings not allowed in content. Use addSubPart() to create nested sections.")
  | _ => .ok (DocumentPart.mk p.heading (p.content ++ [b]) p.subParts)

/-- A chain of nested parts built with `addSubPart`: `nestChain n` is a
chain of `n + 1` parts, the deepest having `n` ancestors. -/
def nestChain : Nat → DocumentPart
  | 0 => DocumentPart.mk [] [] []
  | n + 1 => DocumentPart.addSubPart (DocumentPart.mk [] [] []) (nestChain n)

/-- Ancestor count of the deepest part along the first child spine;
on a chain this is the number of ancestors the deepest part would count
through its parent references. -/
def chainDepth : DocumentPart → Nat
  | .mk _ _ [] => 0
  | .mk _ _ (c :: _) => chainDepth c + 1

/-- `DocumentPart.toFlatBlocks`, lifted to lists of sibling parts at a
common depth: for each part emit a heading block at the derived level,
then its content, then the flattening of its sub parts, then the
following siblings. -/
def flattenParts : Nat → List DocumentPart → List Block
  | _, [] => []
  | d, DocumentPart.mk h c subs :: rest =>
      Block.heading (DocumentPart.level d) h ::
        (c ++ (flattenParts (d + 1) subs ++ flattenParts d rest))

/-- `DocumentPart.toFlatBlocks` at a given depth (depth 0 for a part
with no parent). -/
def DocumentPart.toFlatBlocks (depth : Nat) (p : DocumentPart) : List Block :=
  flattenParts depth [p]

/-- `HierarchicalDocument`: title, optional description, top level parts. -/
structure HierarchicalDocument where
  title : String
  description : Option String
  parts : List DocumentPart

/-- `HierarchicalDocument.toPhotoDocument`: concatenate the flat block
lists of the top level parts. -/
def HierarchicalDocument.toPhotoDocument (hd : HierarchicalDocument) :
    PhotoDocument :=
  { title := hd.title
    description := hd.description
    blocks := (hd.parts.map (DocumentPart.toFlatBlocks 0)).flatten }

/-- One entry of the level stack of `fromPhotoDocument`: the part under
construction and the heading level it was pushed at. -/
abbrev StackEntry := DocumentPart × Int

/-- Attach a finished child as the last sub part of its parent. -/
def attachSub (parent child : DocumentPart) : DocumentPart :=
  DocumentPart.mk parent.heading parent.content (parent.subParts ++ [child])

/-- The pop loop of `fromPhotoDocument`: while the stack has more than
one entry (`rest` nonempty) and the top entry level is `>= L`, pop the
top and fold it into the entry below.  Returns the new top and the
entries below it. -/
def popGE (top : StackEntry) (rest : List StackEntry) (L : Int) :
    StackEntry × List StackEntry :=
  match rest with
  | [] => (top, [])
  | e2 :: rest2 =>
      if top.2 ≥ L then popGE (attachSub e2.1 top.1, e2.2) rest2 L
      else (top, e2 :: rest2)

/-- One scan step of `fromPhotoDocument`.  A heading block pops the
stack to below its level and pushes a fresh part at that level; any
other block either starts the implicit `(Untitled)` part (content before
the first heading, stack holding only the phantom root) or is appended
to the content of the current top part. -/
def hierStep (stack : List StackEntry) (b : Block) : List StackEntry :=
  match stack, b with
  | [], _ => []
  | top :: below, .heading L c =>
      let p := popGE top below L
      (DocumentPart.mk c [] [], L) :: p.1 :: p.2
  | top :: below, b =>
      match below with
      | [] =>
          (DocumentPart.mk [InlineSpan.mk "(Untitled)" InlineType.text] [b] [], 1)
            :: top :: below
      | _ :: _ =>
          (DocumentPart.mk top.1.heading (top.1.content ++ [b]) top.1.subParts,
            top.2) :: below

/-- Fold the whole remaining stack into the bottom (phantom root) entry. -/
def collapseAll (top : StackEntry) (rest : List StackEntry) : StackEntry :=
  match rest with
  | [] => top
  | e2 :: rest2 => collapseAll (attachSub e2.1 top.1, e2.2) rest2

/-- `HierarchicalDocument.fromPhotoDocument`: the single left to right
scan over the flat blocks with the level stack seeded by the phantom
root at level 0.  The top level parts of the result are the sub parts
collected by the phantom root. -/
def HierarchicalDocument.fromPhotoDocument (doc : PhotoDocument) :
    HierarchicalDocument :=
  { title := doc.title
    description := doc.description
    parts :=
      match doc.blocks.foldl hierStep [(DocumentPart.mk [] [] [], 0)] with
      | [] => []
      | top :: rest => (collapseAll top rest).1.subParts }

-- ==================== SERIALIZATION ====================

/-- Wire form of an inline span. -/
structure InlineSpanData where
  text : String
  style : InlineType
deriving DecidableEq

/-- `InlineSpan.fromJSON`. -/
def InlineSpan.fromJSON (d : InlineSpanData) : InlineSpan :=
  InlineSpan.mk d.text d.style

/-- Wire form of one block entry: a raw record discriminated by the
`type` string.  Fields irrelevant to a given discriminator are ignored
by the deserializer, mirroring the unchecked casts of the source. -/
structure BlockData where
  type : String
  level : Int
  content : List InlineSpanData
  items : List (List InlineSpanData)
  imageId : String
  caption : Option String
  alt : Option String
deriving DecidableEq

/-- The block dispatch of `PhotoDocument.fromJSON`: switch on the type
discriminator; heading goes through the validating constructor; an
unrecognized discriminator throws the unknown block type error. -/
def blockFromJSON (bd : BlockData) : Except PTError Block :=
  if bd.type = "heading" then
    HeadingBlock.construct bd.level (bd.content.map InlineSpan.fromJSON)
  else if bd.type = "paragraph" then
    .ok (.paragraph (bd.content.map InlineSpan.fromJSON))
  else if bd.type = "list" then
    .ok (.list (bd.items.map (fun it => it.map InlineSpan.fromJSON)))
  else if bd.type = "image" then
    .ok (.image (ImageBlock.mk bd.imageId bd.caption bd.alt))
  else
    .error (.unknownBlockType ("Unknown block type: " ++ bd.type))

/-- The content block dispatch of `DocumentPart.fromJSON`: only
paragraph, list and image are recognized; everything else (headings
included) falls to the default arm and throws. -/
def partContentBlockFromJSON (bd : BlockData) : Except PTError Block :=
  if bd.type = "paragraph" then
    .ok (.paragraph (bd.content.map InlineSpan.fromJSON))
  else if bd.type = "list" then
    .ok (.list (bd.items.map (fun it => it.map InlineSpan.fromJSON)))
  else if bd.type = "image" then
    .ok (.image (ImageBlock.mk bd.imageId bd.caption bd.alt))
  else
    .error (.validationError
      ("Headings not allowed in DocumentPart content: " ++ bd.type))

/-- Deserialize a block list, aborting at the first failing entry. -/
def blocksFromJSON : List BlockData → Except PTError (List Block)
  | [] => .ok []
  | bd :: rest => do
      let b ← blockFromJSON bd
      let bs ← blocksFromJSON rest
      .ok (b :: bs)

/-- Deserialize a part content list, aborting at the first failure. -/
def partContentsFromJSON : List BlockData → Except PTError (List Block)
  | [] => .ok []
  | bd :: rest => do
      let b ← partContentBlockFromJSON bd
      let bs ← partContentsFromJSON rest
      .ok (b :: bs)

/-- Wire form of a flat document. -/
structure PhotoDocumentData where
  title : String
  description : Option String
  blocks : List BlockData

/-- `PhotoDocument.fromJSON`: deserialize every block entry; any failure
aborts the whole document. -/
def PhotoDocument.fromJSON (d : PhotoDocumentData) :
    Except PTError PhotoDocument := do
  let blocks ← blocksFromJSON d.blocks
  .ok { title := d.title, description := d.description, blocks := blocks }

/-- Wire form of a document part. -/
inductive DocumentPartData where
  | mk (heading : List InlineSpanData) (content : List BlockData)
      (subParts : List DocumentPartData)

def DocumentPartData.content : DocumentPartData → List BlockData
  | .mk _ c _ => c

mutual

/-- `DocumentPart.fromJSON`: deserialize the content blocks (headings
and unknown discriminators throw), then the sub parts recursively. -/
def DocumentPart.fromJSON : DocumentPartData → Except PTError DocumentPart
  | .mk h c subs => do
      let content ← partContentsFromJSON c
      let subParts ← DocumentPart.listFromJSON subs
      .ok (DocumentPart.mk (h.map InlineSpan.fromJSON) content subParts)

/-- Deserialize a list of sub parts in order, aborting at the first
failure. -/
def DocumentPart.listFromJSON :
    List DocumentPartData → Except PTError (List DocumentPart)
  | [] => .ok []
  | d :: rest => do
      let p ← DocumentPart.fromJSON d
      let ps ← DocumentPart.listFromJSON rest
      .ok (p :: ps)

end

-- ==================== CONSISTENCY PREDICATES ====================

/-- Literal reading of the nesting consistency condition of the round
trip claim: it constrains only the heading blocks.  `top` is the level
of the current innermost open section (0 before any heading).  A heading
must sit exactly one level below some open ancestor (equivalently, its
level is at most `top + 1`), must be at least 1 (top level headings are
level 1 over the phantom level 0), and must be a valid heading level
(at most 6, the constructor invariant). -/
def headingsConsistentFrom (top : Int) : List Block → Bool
  | [] => true
  | Block.heading L _ :: rest =>
      (1 ≤ L && L ≤ top + 1 && L ≤ 6) && headingsConsistentFrom L rest
  | _ :: rest => headingsConsistentFrom top rest

/-- Full nesting consistency: like `headingsConsistentFrom`, and in
addition no content block may appear before the first heading (such
content is swallowed by the synthesized `(Untitled)` part and cannot
round trip). -/
def nestingConsistentFrom (top : Int) : List Block → Bool
  | [] => true
  | Block.heading L _ :: rest =>
      (1 ≤ L && L ≤ top + 1 && L ≤ 6) && nestingConsistentFrom L rest
  | _ :: rest => (1 ≤ top) && nestingConsistentFrom top rest

-- ==================== BOOLEAN STRING SEARCH HELPERS ====================

/-- Does `l` start with `pat`? -/
def startsWithSeq : List Char → List Char → Bool
  | [], _ => true
  | _ :: _, [] => false
  | p :: ps, x :: xs => p = x && startsWithSeq ps xs

/-- Does `pat` occur contiguously anywhere in `l`? -/
def hasSub (pat : List Char) : List Char → Bool
  | [] => startsWithSeq pat []
  | x :: xs => startsWithSeq pat (x :: xs) || hasSub pat xs

-- ==================== PROOF SCAFFOLDING DEFINITIONS ====================

/-- The flat block contribution of one open stack part sitting at tree
depth `d`: its heading at the derived level, its content so far, and the
flattening of the sub parts it has already collected. -/
def chunk (d : Nat) (p : DocumentPart) : List Block :=
  Block.heading (DocumentPart.level d) p.heading ::
    (p.content ++ flattenParts (d + 1) p.subParts)

/-- Flat blocks of the document a stack state denotes: fold the stack
into the phantom root and flatten the collected top level parts.  The
entry below `i` others from the bottom sits at tree depth `i - 1`. -/
def stackFlatten : List StackEntry → List Block
  | [] => []
  | [(root, _)] => flattenParts 0 root.subParts
  | e :: e2 :: rest =>
      stackFlatten (e2 :: rest) ++ chunk ((e2 :: rest).length - 1) e.1

/-- The level sequence of a well formed stack of height `k`: levels
`k, k-1, ..., 1, 0` from top to bottom. -/
def levelsOf : Nat → List Int
  | 0 => [(0 : Int)]
  | k + 1 => ((k : Int) + 1) :: levelsOf k


/-- Is this result an UnknownBlockType failure? -/
def errIsUnknownBlockType {α : Type} : Except PTError α → Bool
  | .error (.unknownBlockType _) => true
  | _ => false

-- ==================== CONCRETE EXAMPLE DOCUMENTS ====================

/-- A plain text inline span. -/
def plainSpan (t : String) : InlineSpan :=
  InlineSpan.mk t InlineType.text

/-- Flat document H1 A, H3 B (skipped heading level). -/
def docSkip : PhotoDocument :=
  { title := "skip", description := none,
    blocks := [Block.heading 1 [plainSpan "A"], Block.heading 3 [plainSpan "B"]] }

/-- Flat document H2 A, H1 B (non increasing heading levels). -/
def docPopBack : PhotoDocument :=
  { title := "popback", description := none,
    blocks := [Block.heading 2 [plainSpan "A"], Block.heading 1 [plainSpan "B"]] }

/-- Flat document whose only block is a paragraph (content before any
heading). -/
def docUntitled : PhotoDocument :=
  { title := "untitled", description := none,
    blocks := [Block.paragraph [plainSpan "intro"]] }

/-- Flat document paragraph intro, H1 Section. -/
def docPre : PhotoDocument :=
  { title := "pre", description := none,
    blocks := [Block.paragraph [plainSpan "intro"],
               Block.heading 1 [plainSpan "Section"]] }

/-- A nesting consistent flat document: H1 Trip, paragraph, H2 Rome. -/
def docTrip : PhotoDocument :=
  { title := "trip", description := none,
    blocks := [Block.heading 1 [plainSpan "Trip"],
               Block.paragraph [plainSpan "We went."],
               Block.heading 2 [plainSpan "Rome"]] }

/-- A raw block entry whose type discriminator is unrecognized. -/
def customBlockData : BlockData :=
  BlockData.mk "custom" 0 [] [] "" none none

/-- Part data holding one unknown discriminator content entry. -/
def partDataCustom : DocumentPartData :=
  DocumentPartData.mk [] [customBlockData] []

/-- Flat document data holding one unknown discriminator block entry. -/
def photoDataCustom : PhotoDocumentData :=
  { title := "t", description := none, blocks := [customBlockData] }

-- ==================== HELPER LEMMAS ====================

theorem heading_mk (h : List InlineSpan) (c : List Block) (sp : List DocumentPart) :
    (DocumentPart.mk h c sp).heading = h := rfl

theorem content_mk (h : List InlineSpan) (c : List Block) (sp : List DocumentPart) :
    (DocumentPart.mk h c sp).content = c := rfl

theorem subParts_mk (h : List InlineSpan) (c : List Block) (sp : List DocumentPart) :
    (DocumentPart.mk h c sp).subParts = sp := rfl

theorem flattenParts_append (d : Nat) (xs ys : List DocumentPart) :
    flattenParts d (xs ++ ys) = flattenParts d xs ++ flattenParts d ys := by
  induction xs generalizing d with
  | nil => simp [flattenParts]
  | cons x rest ih =>
    cases x with
    | mk h c subs => simp [flattenParts, ih]

theorem flattenParts_singleton (d : Nat) (p : DocumentPart) :
    flattenParts d [p] = chunk d p := by
  cases p with
  | mk h c subs =>
    simp [flattenParts, chunk, DocumentPart.heading, DocumentPart.content,
      DocumentPart.subParts]

theorem flattenParts_eq_flatten (d : Nat) (ps : List DocumentPart) :
    (ps.map (DocumentPart.toFlatBlocks d)).flatten = flattenParts d ps := by
  induction ps with
  | nil => simp [flattenParts]
  | cons p rest ih =>
    have : flattenParts d (p :: rest) = flattenParts d ([p] ++ rest) := by simp
    rw [this, flattenParts_append]
    simp [DocumentPart.toFlatBlocks, ih]

theorem chunk_attachSub (d : Nat) (p c : DocumentPart) :
    chunk d (attachSub p c) = chunk d p ++ chunk (d + 1) c := by
  simp [chunk, attachSub, DocumentPart.heading, DocumentPart.content,
    DocumentPart.subParts, flattenParts_append, flattenParts_singleton]

theorem stackFlatten_cons (e e2 : StackEntry) (rest : List StackEntry) :
    stackFlatten (e :: e2 :: rest) =
      stackFlatten (e2 :: rest) ++ chunk ((e2 :: rest).length - 1) e.1 := by
  simp [stackFlatten]

theorem stackFlatten_pop (e e2 : StackEntry) (rest2 : List StackEntry) :
    stackFlatten ((attachSub e2.1 e.1, e2.2) :: rest2) =
      stackFlatten (e :: e2 :: rest2) := by
  cases rest2 with
  | nil =>
    simp [stackFlatten, attachSub, DocumentPart.subParts, DocumentPart.heading,
      DocumentPart.content, flattenParts_append, flattenParts_singleton, chunk]
  | cons x t =>
    rw [stackFlatten_cons, stackFlatten_cons, stackFlatten_cons]
    simp [chunk_attachSub, List.append_assoc]

theorem popGE_stackFlatten (rest : List StackEntry) (top : StackEntry) (L : Int) :
    stackFlatten ((popGE top rest L).1 :: (popGE top rest L).2) =
      stackFlatten (top :: rest) := by
  induction rest generalizing top with
  | nil => simp [popGE]
  | cons e2 rest2 ih =>
    by_cases h : top.2 ≥ L
    · rw [show popGE top (e2 :: rest2) L = popGE (attachSub e2.1 top.1, e2.2) rest2 L
        from by simp [popGE, h]]
      rw [ih]
      exact stackFlatten_pop top e2 rest2
    · simp [popGE, h]

theorem collapseAll_stackFlatten (rest : List StackEntry) (top : StackEntry) :
    stackFlatten [collapseAll top rest] = stackFlatten (top :: rest) := by
  induction rest generalizing top with
  | nil => simp [collapseAll]
  | cons e2 rest2 ih =>
    rw [show collapseAll top (e2 :: rest2) = collapseAll (attachSub e2.1 top.1, e2.2) rest2
      from by simp [collapseAll]]
    rw [ih]
    exact stackFlatten_pop top e2 rest2

theorem stackFlatten_single (x : StackEntry) :
    stackFlatten [x] = flattenParts 0 x.1.subParts := by
  obtain ⟨p, l⟩ := x
  simp [stackFlatten]

theorem levelsOf_length (k : Nat) : (levelsOf k).length = k + 1 := by
  induction k with
  | zero => simp [levelsOf]
  | succ n ih => simp [levelsOf, ih]

theorem levelsOf_ne_nil (k : Nat) : levelsOf k ≠ [] := by
  cases k <;> simp [levelsOf]

theorem levels_inv (n : Nat) (top : StackEntry) (rest : List StackEntry)
    (hlv : (top :: rest).map Prod.snd = levelsOf (n + 1)) :
    top.2 = (n : Int) + 1 ∧ rest.map Prod.snd = levelsOf n := by
  simp only [levelsOf, List.map_cons, List.cons.injEq] at hlv
  exact hlv

theorem levels_zero_inv (top : StackEntry) (rest : List StackEntry)
    (hlv : (top :: rest).map Prod.snd = levelsOf 0) :
    top.2 = 0 ∧ rest = [] := by
  simp only [levelsOf, List.map_cons, List.cons.injEq, List.map_eq_nil_iff] at hlv
  exact hlv

theorem popGE_levels (k : Nat) :
    ∀ (top : StackEntry) (rest : List StackEntry) (L : Int),
    (top :: rest).map Prod.snd = levelsOf k → 1 ≤ L → L ≤ (k : Int) + 1 →
    ((popGE top rest L).1 :: (popGE top rest L).2).map Prod.snd =
      levelsOf (L.toNat - 1) := by
  induction k with
  | zero =>
    intro top rest L hlv hL1 hLk
    obtain ⟨htop, hrest⟩ := levels_zero_inv top rest hlv
    subst hrest
    have hL : L = 1 := by omega
    subst hL
    simp [popGE, levelsOf, htop]
  | succ n ih =>
    intro top rest L hlv hL1 hLk
    obtain ⟨htop, hrest⟩ := levels_inv n top rest hlv
    cases rest with
    | nil =>
      have hlen := levelsOf_ne_nil n
      simp only [List.map_nil] at hrest
      exact absurd hrest.symm hlen
    | cons e2 rest2 =>
      by_cases hc : top.2 ≥ L
      · rw [show popGE top (e2 :: rest2) L = popGE (attachSub e2.1 top.1, e2.2) rest2 L
          from by simp [popGE, hc]]
        apply ih
        · simpa using hrest
        · exact hL1
        · omega
      · rw [show popGE top (e2 :: rest2) L = (top, e2 :: rest2)
          from by simp [popGE, hc]]
        have hL : L = (n : Int) + 2 := by omega
        have hLt : L.toNat - 1 = n + 1 := by omega
        rw [hLt]
        simpa [levelsOf, htop] using hrest

theorem hierStep_heading (top : StackEntry) (below : List StackEntry)
    (L : Int) (c : List InlineSpan) :
    hierStep (top :: below) (.heading L c) =
      (DocumentPart.mk c [] [], L) :: (popGE top below L).1 :: (popGE top below L).2 :=
  rfl

theorem hierStep_content (top e2 : StackEntry) (rest2 : List StackEntry) (b : Block)
    (hb : ∀ L c, b ≠ .heading L c) :
    hierStep (top :: e2 :: rest2) b =
      (DocumentPart.mk top.1.heading (top.1.content ++ [b]) top.1.subParts, top.2)
        :: e2 :: rest2 := by
  cases b with
  | heading L c => exact absurd rfl (hb L c)
  | paragraph c => rfl
  | list i => rfl
  | image i => rfl

theorem hierStep_root_content (r : StackEntry) (b : Block)
    (hb : ∀ L c, b ≠ .heading L c) :
    hierStep [r] b =
      [(DocumentPart.mk [InlineSpan.mk "(Untitled)" InlineType.text] [b] [], 1), r] := by
  cases b with
  | heading L c => exact absurd rfl (hb L c)
  | paragraph c => rfl
  | list i => rfl
  | image i => rfl

theorem nestingConsistentFrom_content (top : Int) (b : Block) (bs : List Block)
    (hb : ∀ L c, b ≠ .heading L c) :
    nestingConsistentFrom top (b :: bs) = true ↔
      (1 ≤ top ∧ nestingConsistentFrom top bs = true) := by
  cases b with
  | heading L c => exact absurd rfl (hb L c)
  | paragraph c => simp [nestingConsistentFrom]
  | list i => simp [nestingConsistentFrom]
  | image i => simp [nestingConsistentFrom]

theorem hierStep_ne_nil (S : List StackEntry) (b : Block) (h : S ≠ []) :
    hierStep S b ≠ [] := by
  cases S with
  | nil => exact absurd rfl h
  | cons top below =>
    cases b with
    | heading L c => simp [hierStep]
    | paragraph c => cases below <;> simp [hierStep]
    | list i => cases below <;> simp [hierStep]
    | image i => cases below <;> simp [hierStep]

theorem foldl_hierStep_ne_nil (bs : List Block) :
    ∀ S, S ≠ [] → List.foldl hierStep S bs ≠ [] := by
  induction bs with
  | nil => intro S h; simpa using h
  | cons b bs ih =>
    intro S h
    rw [List.foldl_cons]
    exact ih _ (hierStep_ne_nil S b h)

theorem processConsistent (bs : List Block) :
    ∀ (k : Nat) (top : StackEntry) (rest : List StackEntry),
    (top :: rest).map Prod.snd = levelsOf k → k ≤ 6 →
    (1 ≤ k → top.1.subParts = []) →
    nestingConsistentFrom (k : Int) bs = true →
    stackFlatten (List.foldl hierStep (top :: rest) bs) =
      stackFlatten (top :: rest) ++ bs := by
  induction bs with
  | nil => intro k top rest _ _ _ _; simp
  | cons b bs ih =>
    intro k top rest hlv hk6 hsub hcons
    have hlen : (top :: rest).length = k + 1 := by
      have h := congrArg List.length hlv
      simpa [levelsOf_length] using h
    have content_case : (∀ L c, b ≠ Block.heading L c) →
        stackFlatten (List.foldl hierStep (top :: rest) (b :: bs)) =
          stackFlatten (top :: rest) ++ (b :: bs) := by
      intro hb
      obtain ⟨htop, hrest⟩ := (nestingConsistentFrom_content (k : Int) b bs hb).1 hcons
      have hk1 : 1 ≤ k := by omega
      cases rest with
      | nil => simp at hlen; omega
      | cons e2 rest2 =>
        have hsub' : top.1.subParts = [] := hsub hk1
        rw [List.foldl_cons, hierStep_content top e2 rest2 b hb]
        have hlv2 : ((DocumentPart.mk top.1.heading (top.1.content ++ [b])
              top.1.subParts, top.2) :: e2 :: rest2).map Prod.snd = levelsOf k := by
          simpa using hlv
        have hIH := ih k _ (e2 :: rest2) hlv2 hk6
          (fun _ => by simp [subParts_mk]; exact hsub') hrest
        rw [hIH, stackFlatten_cons, stackFlatten_cons]
        have hch : chunk ((e2 :: rest2).length - 1)
            (DocumentPart.mk top.1.heading (top.1.content ++ [b]) top.1.subParts) =
            chunk ((e2 :: rest2).length - 1) top.1 ++ [b] := by
          simp [chunk, heading_mk, content_mk, subParts_mk, hsub', flattenParts]
        rw [show ((DocumentPart.mk top.1.heading (top.1.content ++ [b])
              top.1.subParts, top.2) : StackEntry).1 =
            DocumentPart.mk top.1.heading (top.1.content ++ [b]) top.1.subParts
          from rfl, hch]
        simp [List.append_assoc]
    cases b with
    | heading L c =>
      simp only [nestingConsistentFrom, Bool.and_eq_true, decide_eq_true_eq] at hcons
      obtain ⟨⟨⟨hL1, hLk⟩, hL6⟩, hrest⟩ := hcons
      obtain ⟨m, hLm⟩ : ∃ m : Nat, (m : Int) = L := ⟨L.toNat, by omega⟩
      have hm1 : 1 ≤ m := by omega
      have hm6 : m ≤ 6 := by omega
      rw [List.foldl_cons, hierStep_heading]
      have hPlv : ((popGE top rest L).1 :: (popGE top rest L).2).map Prod.snd =
          levelsOf (m - 1) := by
        have h := popGE_levels k top rest L hlv hL1 hLk
        rwa [show L.toNat = m from by omega] at h
      have hlv' : ((DocumentPart.mk c [] [], L) ::
          (popGE top rest L).1 :: (popGE top rest L).2).map Prod.snd = levelsOf m := by
        have h2 : levelsOf m = (((m - 1 : Nat) : Int) + 1) :: levelsOf (m - 1) := by
          obtain ⟨mm, rfl⟩ : ∃ mm, m = mm + 1 := ⟨m - 1, by omega⟩
          simp [levelsOf]
        have h1 : ((m - 1 : Nat) : Int) + 1 = L := by omega
        rw [h2, h1]
        simpa using hPlv
      have hIH := ih m (DocumentPart.mk c [] [], L)
        ((popGE top rest L).1 :: (popGE top rest L).2) hlv' hm6 (fun _ => rfl)
        (by rw [hLm]; exact hrest)
      have hplen : ((popGE top rest L).1 :: (popGE top rest L).2).length = m := by
        have h := congrArg List.length hPlv
        rw [List.length_map, levelsOf_length] at h
        rw [h]
        omega
      have hchunk : chunk (((popGE top rest L).1 :: (popGE top rest L).2).length - 1)
          (DocumentPart.mk c [] []) = [Block.heading L c] := by
        rw [hplen]
        have hlev : DocumentPart.level (m - 1) = L := by
          unfold DocumentPart.level
          rw [show ((m - 1 : Nat) : Int) + 1 = L from by omega]
          exact min_eq_left hL6
        simp [chunk, flattenParts, heading_mk, content_mk, subParts_mk, hlev]
      rw [hIH, stackFlatten_cons]
      rw [show ((DocumentPart.mk c [] [], L) : StackEntry).1 = DocumentPart.mk c [] []
        from rfl, hchunk, popGE_stackFlatten]
      simp [List.append_assoc]
    | paragraph c => exact content_case (by simp)
    | list i => exact content_case (by simp)
    | image i => exact content_case (by simp)

theorem chainDepth_nestChain (n : Nat) : chainDepth (nestChain n) = n := by
  induction n with
  | zero => simp [nestChain, chainDepth]
  | succ n ih =>
    simp [nestChain, DocumentPart.addSubPart, heading_mk, content_mk,
      subParts_mk, chainDepth, ih]

theorem fromPhoto_toPhoto_blocks (doc : PhotoDocument) :
    (HierarchicalDocument.fromPhotoDocument doc).toPhotoDocument.blocks =
      stackFlatten (doc.blocks.foldl hierStep [(DocumentPart.mk [] [] [], 0)]) := by
  obtain ⟨t, r, hfin⟩ : ∃ t r,
      doc.blocks.foldl hierStep [(DocumentPart.mk [] [] [], 0)] = t :: r := by
    cases hf : doc.blocks.foldl hierStep [(DocumentPart.mk [] [] [], 0)] with
    | nil => exact absurd hf (foldl_hierStep_ne_nil _ _ (by simp))
    | cons t r => exact ⟨t, r, rfl⟩
  rw [hfin]
  simp only [HierarchicalDocument.toPhotoDocument,
    HierarchicalDocument.fromPhotoDocument, hfin, flattenParts_eq_flatten]
  rw [← stackFlatten_single, collapseAll_stackFlatten]

-- ==================== CLAIM THEOREMS ====================

/-- Claim C1, counterexample to the literal statement: the flat sequence
holding a single paragraph has all (zero) heading levels nesting
consistent, yet the round trip prepends the synthesized `(Untitled)`
heading, so it does not reproduce the block sequence. -/
theorem c1_counterexample :
    headingsConsistentFrom 0 docUntitled.blocks = true ∧
    (HierarchicalDocument.fromPhotoDocument docUntitled).toPhotoDocument.blocks ≠
      docUntitled.blocks := by
  constructor
  · rfl
  · have hp : (HierarchicalDocument.fromPhotoDocument docUntitled).parts =
        [DocumentPart.mk [InlineSpan.mk "(Untitled)" InlineType.text]
          [Block.paragraph [plainSpan "intro"]] []] := rfl
    have hb : (HierarchicalDocument.fromPhotoDocument docUntitled).toPhotoDocument.blocks =
        [Block.heading 1 [InlineSpan.mk "(Untitled)" InlineType.text],
         Block.paragraph [plainSpan "intro"]] := by
      simp [HierarchicalDocument.toPhotoDocument, hp, DocumentPart.toFlatBlocks,
        flattenParts, DocumentPart.level]
    rw [hb]
    simp [docUntitled]

/-- Claim C1 (amended): for every flat document whose block sequence is
nesting consistent -- every heading sits exactly one level below its
parent section with top level headings at level 1, and no content block
precedes the first heading -- flattening the hierarchized document
reproduces the block sequence exactly. -/
theorem c1_roundtrip_amended (doc : PhotoDocument)
    (h : nestingConsistentFrom 0 doc.blocks = true) :
    (HierarchicalDocument.fromPhotoDocument doc).toPhotoDocument.blocks =
      doc.blocks := by
  rw [fromPhoto_toPhoto_blocks]
  have hrun := processConsistent doc.blocks 0 (DocumentPart.mk [] [] [], 0) []
    (by simp [levelsOf]) (by omega) (fun h0 => absurd h0 (by omega))
    (by simpa using h)
  rw [hrun]
  simp [stackFlatten, subParts_mk, flattenParts]

/-- Claim C1 witness: a concrete nesting consistent document round
trips. -/
theorem c1_roundtrip_amended_witness :
    (HierarchicalDocument.fromPhotoDocument docTrip).toPhotoDocument.blocks =
      docTrip.blocks :=
  c1_roundtrip_amended docTrip (by decide)

/-- Claim C2: on H1 A, H3 B the hierarchizer makes B the immediate child
part of A, and flattening regenerates B at the derived level 2, not the
stored 3. -/
theorem c2_skipped_level_normalization :
    (HierarchicalDocument.fromPhotoDocument docSkip).parts =
      [DocumentPart.mk [plainSpan "A"] []
        [DocumentPart.mk [plainSpan "B"] [] []]] ∧
    (HierarchicalDocument.fromPhotoDocument docSkip).toPhotoDocument.blocks =
      [Block.heading 1 [plainSpan "A"], Block.heading 2 [plainSpan "B"]] := by
  refine ⟨rfl, ?_⟩
  have hp : (HierarchicalDocument.fromPhotoDocument docSkip).parts =
      [DocumentPart.mk [plainSpan "A"] []
        [DocumentPart.mk [plainSpan "B"] [] []]] := rfl
  simp [HierarchicalDocument.toPhotoDocument, hp, DocumentPart.toFlatBlocks,
    flattenParts, DocumentPart.level]

/-- Claim C3: a heading block pops the level stack while the top entry
level is at least the new level (the guard is greater or equal, and the
loop also stops at the phantom root), then pushes the fresh part at the
heading level; consequently H1 right after H2 becomes a second top level
part rather than a child. -/
theorem c3_heading_stack_policy :
    (∀ (top : StackEntry) (below : List StackEntry) (L : Int)
        (c : List InlineSpan),
      hierStep (top :: below) (Block.heading L c) =
        (DocumentPart.mk c [] [], L) :: (popGE top below L).1 ::
          (popGE top below L).2)
    ∧ (∀ (top e2 : StackEntry) (rest2 : List StackEntry) (L : Int),
      popGE top (e2 :: rest2) L =
        if top.2 ≥ L then popGE (attachSub e2.1 top.1, e2.2) rest2 L
        else (top, e2 :: rest2))
    ∧ (∀ (top : StackEntry) (L : Int), popGE top [] L = (top, []))
    ∧ (HierarchicalDocument.fromPhotoDocument docPopBack).parts =
        [DocumentPart.mk [plainSpan "A"] [] [],
         DocumentPart.mk [plainSpan "B"] [] []] :=
  ⟨fun _ _ _ _ => rfl, fun _ _ _ _ => rfl, fun _ _ => rfl, rfl⟩

/-- Claim C4: a non heading block arriving while the stack holds only
the phantom root synthesizes the implicit part with the single plain
`(Untitled)` sentinel span holding the block as content; on the concrete
document paragraph intro, H1 Section this yields two top level parts,
the first the sentinel part carrying the paragraph. -/
theorem c4_pre_heading_content (b : Block)
    (hb : ∀ L c, b ≠ Block.heading L c) :
    hierStep [(DocumentPart.mk [] [] [], 0)] b =
      [(DocumentPart.mk [InlineSpan.mk "(Untitled)" InlineType.text] [b] [], 1),
       (DocumentPart.mk [] [] [], 0)] ∧
    (HierarchicalDocument.fromPhotoDocument docPre).parts =
      [DocumentPart.mk [InlineSpan.mk "(Untitled)" InlineType.text]
         [Block.paragraph [plainSpan "intro"]] [],
       DocumentPart.mk [plainSpan "Section"] [] []] :=
  ⟨hierStep_root_content _ b hb, rfl⟩

/-- Claim C4 witness at a concrete paragraph block. -/
theorem c4_pre_heading_content_witness :
    hierStep [(DocumentPart.mk [] [] [], 0)] (Block.paragraph [plainSpan "x"]) =
      [(DocumentPart.mk [InlineSpan.mk "(Untitled)" InlineType.text]
          [Block.paragraph [plainSpan "x"]] [], 1),
       (DocumentPart.mk [] [] [], 0)] ∧
    (HierarchicalDocument.fromPhotoDocument docPre).parts =
      [DocumentPart.mk [InlineSpan.mk "(Untitled)" InlineType.text]
         [Block.paragraph [plainSpan "intro"]] [],
       DocumentPart.mk [plainSpan "Section"] [] []] :=
  c4_pre_heading_content (Block.paragraph [plainSpan "x"]) (by simp)

/-- Claim C5: in a chain of N parts nested with addSubPart (N from 1 to
10), the deepest part has N - 1 ancestors and its derived level is
min N 6. -/
theorem c5_derived_level_chain (N : Nat) (h1 : 1 ≤ N) (h2 : N ≤ 10) :
    chainDepth (nestChain (N - 1)) = N - 1 ∧
    DocumentPart.level (chainDepth (nestChain (N - 1))) = min (N : Int) 6 := by
  refine ⟨chainDepth_nestChain (N - 1), ?_⟩
  rw [chainDepth_nestChain]
  unfold DocumentPart.level
  rw [show ((N - 1 : Nat) : Int) + 1 = (N : Int) from by omega]

/-- Claim C5 witness at the chain of 8 parts. -/
theorem c5_derived_level_chain_witness :
    chainDepth (nestChain 7) = 7 ∧
    DocumentPart.level (chainDepth (nestChain 7)) = min (8 : Int) 6 :=
  c5_derived_level_chain 8 (by decide) (by decide)

/-- Claim C6: constructing a heading block with level below 1 or above 6
throws the validation error; any level in 1..6 is stored unchanged. -/
theorem c6_heading_level_validation (level : Int) (content : List InlineSpan) :
    ((level < 1 ∨ level > 6) →
      HeadingBlock.construct level content =
        .error (.validationError
          ("Heading level must be 1-6, got " ++ toString level)))
    ∧ (1 ≤ level → level ≤ 6 →
      HeadingBlock.construct level content = .ok (.heading level content)) := by
  constructor
  · intro h
    rw [HeadingBlock.construct, if_pos h]
  · intro h1 h2
    rw [HeadingBlock.construct, if_neg (by omega)]

/-- Claim C6 witness at levels 7 and 3. -/
theorem c6_heading_level_validation_witness :
    HeadingBlock.construct 7 [] =
      .error (.validationError ("Heading level must be 1-6, got " ++ toString (7 : Int)))
    ∧ HeadingBlock.construct 3 [] = .ok (.heading 3 []) :=
  ⟨(c6_heading_level_validation 7 []).1 (by decide),
   (c6_heading_level_validation 3 []).2 (by decide) (by decide)⟩

/-- Claim C7: addContent rejects every heading block with the validation
error (and produces no new part), appends every non heading block, and
therefore preserves the invariant that part content holds no heading. -/
theorem c7_content_no_headings (p : DocumentPart) (L : Int)
    (c : List InlineSpan) (b : Block) :
    (p.addContent (Block.heading L c) =
      .error (.validationError
        "Headings not allowed in content. Use addSubPart() to create nested sections."))
    ∧ ((∀ Lp cp, b ≠ Block.heading Lp cp) →
      p.addContent b =
        .ok (DocumentPart.mk p.heading (p.content ++ [b]) p.subParts))
    ∧ (∀ q, (∀ blk ∈ p.content, ∀ Lp cp, blk ≠ Block.heading Lp cp) →
        p.addContent b = .ok q →
        ∀ blk ∈ q.content, ∀ Lp cp, blk ≠ Block.heading Lp cp) := by
  refine ⟨rfl, ?_, ?_⟩
  · intro hb
    cases b with
    | heading Lp cp => exact absurd rfl (hb Lp cp)
    | paragraph cc => rfl
    | list i => rfl
    | image i => rfl
  · intro q hp hok blk hmem Lp cp
    cases b with
    | heading Lh ch =>
      exact absurd hok (by simp [DocumentPart.addContent])
    | paragraph cc =>
      simp only [DocumentPart.addContent] at hok
      injection hok with hq
      subst hq
      rw [content_mk] at hmem
      rcases List.mem_append.1 hmem with hin | hin
      · exact hp blk hin Lp cp
      · simp at hin; subst hin; simp
    | list i =>
      simp only [DocumentPart.addContent] at hok
      injection hok with hq
      subst hq
      rw [content_mk] at hmem
      rcases List.mem_append.1 hmem with hin | hin
      · exact hp blk hin Lp cp
      · simp at hin; subst hin; simp
    | image i =>
      simp only [DocumentPart.addContent] at hok
      injection hok with hq
      subst hq
      rw [content_mk] at hmem
      rcases List.mem_append.1 hmem with hin | hin
      · exact hp blk hin Lp cp
      · simp at hin; subst hin; simp

/-- Claim C7 witness on a concrete part and blocks. -/
theorem c7_content_no_headings_witness :
    ((DocumentPart.mk [] [] []).addContent (Block.heading 2 []) =
      .error (.validationError
        "Headings not allowed in content. Use addSubPart() to create nested sections."))
    ∧ ((DocumentPart.mk [] [] []).addContent (Block.paragraph []) =
      .ok (DocumentPart.mk [] ([] ++ [Block.paragraph []]) [])) :=
  ⟨(c7_content_no_headings (DocumentPart.mk [] [] []) 2 [] (Block.paragraph [])).1,
   (c7_content_no_headings (DocumentPart.mk [] [] []) 2 [] (Block.paragraph [])).2.1
     (by simp)⟩

theorem blocksFromJSON_error (l : List BlockData) (bd : BlockData)
    (hmem : bd ∈ l) (he : ∃ e0, blockFromJSON bd = .error e0) :
    ∃ e, blocksFromJSON l = .error e := by
  induction l with
  | nil => simp at hmem
  | cons x rest ih =>
    rcases List.mem_cons.1 hmem with rfl | hin
    · obtain ⟨e0, he0⟩ := he
      exact ⟨e0, by simp [blocksFromJSON, he0, Except.bind, Bind.bind]⟩
    · cases hx : blockFromJSON x with
      | error e0 => exact ⟨e0, by simp [blocksFromJSON, hx, Except.bind, Bind.bind]⟩
      | ok bx =>
        obtain ⟨e, hrest⟩ := ih hin
        exact ⟨e, by simp [blocksFromJSON, hx, hrest, Except.bind, Bind.bind]⟩

theorem partContentsFromJSON_error (l : List BlockData) (bd : BlockData)
    (hmem : bd ∈ l) (he : ∃ e0, partContentBlockFromJSON bd = .error e0) :
    ∃ e, partContentsFromJSON l = .error e := by
  induction l with
  | nil => simp at hmem
  | cons x rest ih =>
    rcases List.mem_cons.1 hmem with rfl | hin
    · obtain ⟨e0, he0⟩ := he
      exact ⟨e0, by simp [partContentsFromJSON, he0, Except.bind, Bind.bind]⟩
    · cases hx : partContentBlockFromJSON x with
      | error e0 =>
        exact ⟨e0, by simp [partContentsFromJSON, hx, Except.bind, Bind.bind]⟩
      | ok bx =>
        obtain ⟨e, hrest⟩ := ih hin
        exact ⟨e, by simp [partContentsFromJSON, hx, hrest, Except.bind, Bind.bind]⟩

theorem blockFromJSON_unknown (bd : BlockData)
    (h1 : bd.type ≠ "heading") (h2 : bd.type ≠ "paragraph")
    (h3 : bd.type ≠ "list") (h4 : bd.type ≠ "image") :
    blockFromJSON bd =
      .error (.unknownBlockType ("Unknown block type: " ++ bd.type)) := by
  simp [blockFromJSON, h1, h2, h3, h4]

theorem partContentBlockFromJSON_notRecognized (bd : BlockData)
    (h2 : bd.type ≠ "paragraph") (h3 : bd.type ≠ "list")
    (h4 : bd.type ≠ "image") :
    partContentBlockFromJSON bd =
      .error (.validationError
        ("Headings not allowed in DocumentPart content: " ++ bd.type)) := by
  simp [partContentBlockFromJSON, h2, h3, h4]

/-- Claim C8 counterexample: a part content entry with the unknown
discriminator custom makes DocumentPart.fromJSON fail with the headings
not allowed validation error of the default switch arm, not with
UnknownBlockType as the claim states. -/
theorem c8_counterexample :
    DocumentPart.fromJSON partDataCustom =
      .error (.validationError "Headings not allowed in DocumentPart content: custom")
    ∧ errIsUnknownBlockType (DocumentPart.fromJSON partDataCustom) = false := by
  have h : DocumentPart.fromJSON partDataCustom =
      .error (.validationError
        "Headings not allowed in DocumentPart content: custom") := by
    simp [partDataCustom, customBlockData, DocumentPart.fromJSON,
      partContentsFromJSON, partContentBlockFromJSON, Except.bind, Bind.bind]
  exact ⟨h, by rw [h]; rfl⟩

/-- Claim C8 (amended): an unknown block type discriminator always
aborts deserialization with an error and yields no partial document, in
both the flat document and the part deserializer; the per entry dispatch
reports UnknownBlockType in the flat case but the headings not allowed
ValidationError in the part content case. -/
theorem c8_unknown_type_amended (bd : BlockData) (d : PhotoDocumentData)
    (pd : DocumentPartData)
    (h1 : bd.type ≠ "heading") (h2 : bd.type ≠ "paragraph")
    (h3 : bd.type ≠ "list") (h4 : bd.type ≠ "image") :
    blockFromJSON bd =
      .error (.unknownBlockType ("Unknown block type: " ++ bd.type))
    ∧ partContentBlockFromJSON bd =
      .error (.validationError
        ("Headings not allowed in DocumentPart content: " ++ bd.type))
    ∧ (bd ∈ d.blocks → ∃ e, PhotoDocument.fromJSON d = .error e)
    ∧ (bd ∈ pd.content → ∃ e, DocumentPart.fromJSON pd = .error e) := by
  refine ⟨blockFromJSON_unknown bd h1 h2 h3 h4,
    partContentBlockFromJSON_notRecognized bd h2 h3 h4, ?_, ?_⟩
  · intro hmem
    obtain ⟨e, hb⟩ := blocksFromJSON_error d.blocks bd hmem
      ⟨_, blockFromJSON_unknown bd h1 h2 h3 h4⟩
    exact ⟨e, by simp [PhotoDocument.fromJSON, hb, Except.bind, Bind.bind]⟩
  · intro hmem
    cases pd with
    | mk hh cc subs =>
      obtain ⟨e, hc⟩ := partContentsFromJSON_error cc bd
        (by simpa [DocumentPartData.content] using hmem)
        ⟨_, partContentBlockFromJSON_notRecognized bd h2 h3 h4⟩
      exact ⟨e, by simp [DocumentPart.fromJSON, hc, Except.bind, Bind.bind]⟩

/-- Claim C8 witness at the concrete unknown discriminator custom. -/
theorem c8_unknown_type_amended_witness :
    blockFromJSON customBlockData =
      .error (.unknownBlockType ("Unknown block type: " ++ customBlockData.type))
    ∧ partContentBlockFromJSON customBlockData =
      .error (.validationError
        ("Headings not allowed in DocumentPart content: " ++ customBlockData.type))
    ∧ (∃ e, PhotoDocument.fromJSON photoDataCustom = .error e)
    ∧ (∃ e, DocumentPart.fromJSON partDataCustom = .error e) := by
  have h := c8_unknown_type_amended customBlockData photoDataCustom partDataCustom
    (by decide) (by decide) (by decide) (by decide)
  exact ⟨h.1, h.2.1, h.2.2.1 (by decide), h.2.2.2 (by decide)⟩

theorem mem_replaceAllChar (c : Char) (r l : List Char) (x : Char)
    (hx : x ∈ replaceAllChar c r l) : x ∈ r ∨ (x ∈ l ∧ x ≠ c) := by
  induction l with
  | nil => simp [replaceAllChar] at hx
  | cons y ys ih =>
    simp only [replaceAllChar] at hx
    rcases List.mem_append.1 hx with h1 | h2
    · by_cases hyc : y = c
      · rw [if_pos hyc] at h1
        exact Or.inl h1
      · rw [if_neg hyc] at h1
        simp at h1
        subst h1
        exact Or.inr ⟨List.mem_cons_self _ _, hyc⟩
    · rcases ih h2 with h | ⟨hmem, hne⟩
      · exact Or.inl h
      · exact Or.inr ⟨List.mem_cons_of_mem _ hmem, hne⟩

theorem escapeHTML_no_specials (s : String) :
    '<' ∉ (escapeHTML s).data ∧ '>' ∉ (escapeHTML s).data ∧
      '"' ∉ (escapeHTML s).data := by
  refine ⟨?_, ?_, ?_⟩
  · intro h
    rcases mem_replaceAllChar _ _ _ _ h with h4 | ⟨h3, _⟩
    · exact absurd h4 (by decide)
    rcases mem_replaceAllChar _ _ _ _ h3 with h4 | ⟨h2, _⟩
    · exact absurd h4 (by decide)
    rcases mem_replaceAllChar _ _ _ _ h2 with h4 | ⟨_, hne⟩
    · exact absurd h4 (by decide)
    · exact hne rfl
  · intro h
    rcases mem_replaceAllChar _ _ _ _ h with h4 | ⟨h3, _⟩
    · exact absurd h4 (by decide)
    rcases mem_replaceAllChar _ _ _ _ h3 with h4 | ⟨_, hne⟩
    · exact absurd h4 (by decide)
    · exact hne rfl
  · intro h
    rcases mem_replaceAllChar _ _ _ _ h with h4 | ⟨_, hne⟩
    · exact absurd h4 (by decide)
    · exact hne rfl

/-- Claim C9: inline span rendering escapes the text inside the fixed
style wrapper tags -- the escaped text retains no raw lt, gt or double
quote character -- and rendering the script probe text yields no raw
script tag for any style. -/
theorem c9_html_escaping (s t : String) :
    ((escapeHTML s).data.contains '<' = false ∧
     (escapeHTML s).data.contains '>' = false ∧
     (escapeHTML s).data.contains '"' = false)
    ∧ InlineSpan.toHTML (InlineSpan.mk t InlineType.text) = escapeHTML t
    ∧ InlineSpan.toHTML (InlineSpan.mk t InlineType.bold) =
        "<strong>" ++ escapeHTML t ++ "</strong>"
    ∧ InlineSpan.toHTML (InlineSpan.mk t InlineType.italic) =
        "<em>" ++ escapeHTML t ++ "</em>"
    ∧ InlineSpan.toHTML (InlineSpan.mk t InlineType.boldItalic) =
        "<strong><em>" ++ escapeHTML t ++ "</em></strong>"
    ∧ (∀ st : InlineType, hasSub "<script>".data
        (InlineSpan.toHTML
          (InlineSpan.mk "<script>alert(1)</script>" st)).data = false) := by
  obtain ⟨h1, h2, h3⟩ := escapeHTML_no_specials s
  refine ⟨⟨?_, ?_, ?_⟩, rfl, rfl, rfl, rfl, ?_⟩
  · simp only [List.contains, List.elem_eq_mem]
    exact decide_eq_false h1
  · simp only [List.contains, List.elem_eq_mem]
    exact decide_eq_false h2
  · simp only [List.contains, List.elem_eq_mem]
    exact decide_eq_false h3
  · intro st
    cases st <;> decide

theorem data_append : ∀ (a b : String), (a ++ b).data = a.data ++ b.data
  | ⟨_⟩, ⟨_⟩ => rfl

theorem dataSub_here (X d mid : String) :
    ∃ pre post, ((X ++ mid) ++ d).data = pre ++ mid.data ++ post :=
  ⟨X.data, d.data, by rw [data_append, data_append]⟩

theorem dataSub_extendR (S d : String) (m : List Char)
    (h : ∃ pre post, S.data = pre ++ m ++ post) :
    ∃ pre post, (S ++ d).data = pre ++ m ++ post := by
  obtain ⟨pre, post, hh⟩ := h
  exact ⟨pre, post ++ d.data, by rw [data_append, hh]; simp [List.append_assoc]⟩

theorem dataSub_extendL (x S : String) (m : List Char)
    (h : ∃ pre post, S.data = pre ++ m ++ post) :
    ∃ pre post, (x ++ S).data = pre ++ m ++ post := by
  obtain ⟨pre, post, hh⟩ := h
  exact ⟨x.data ++ pre, post, by rw [data_append, hh]; simp [List.append_assoc]⟩

theorem imgTag_contains_alt (url altText imageId : String) :
    ∃ pre post, (imgTagStr url altText imageId).data =
      pre ++ altText.data ++ post := by
  unfold imgTagStr
  exact dataSub_extendR _ _ _ (dataSub_extendR _ _ _ (dataSub_here _ _ altText))

theorem imgTag_contains_url (url altText imageId : String) :
    ∃ pre post, (imgTagStr url altText imageId).data =
      pre ++ url.data ++ post := by
  unfold imgTagStr
  exact dataSub_extendR _ _ _ (dataSub_extendR _ _ _ (dataSub_extendR _ _ _
    (dataSub_extendR _ _ _ (dataSub_here _ _ url))))

theorem imgTag_contains_id (url altText imageId : String) :
    ∃ pre post, (imgTagStr url altText imageId).data =
      pre ++ imageId.data ++ post := by
  unfold imgTagStr
  exact dataSub_here _ _ imageId

theorem toHTML_figure_form (id c : String) (oalt : Option String)
    (r : Option (String → String)) (hc : c ≠ "") :
    ImageBlock.toHTML (ImageBlock.mk id (some c) oalt) r =
      "<figure>\n  " ++
        imgTagStr (resolveUrl r id) (orFalsy oalt (orFalsy (some c) "")) id ++
        "\n  <figcaption>" ++ c ++ "</figcaption>\n</figure>" := by
  simp [ImageBlock.toHTML, hc]

theorem toHTML_contains_imgTag (b : ImageBlock) (r : Option (String → String))
    (m : List Char)
    (h : ∃ pre post, (imgTagStr (resolveUrl r b.imageId)
      (orFalsy b.alt (orFalsy b.caption "")) b.imageId).data = pre ++ m ++ post) :
    ∃ pre post, (b.toHTML r).data = pre ++ m ++ post := by
  obtain ⟨id, ocap, oalt⟩ := b
  cases ocap with
  | none => simpa [ImageBlock.toHTML] using h
  | some c =>
    by_cases hc : c = ""
    · simpa [ImageBlock.toHTML, hc] using h
    · rw [toHTML_figure_form id c oalt r hc]
      exact dataSub_extendR _ _ _ (dataSub_extendR _ _ _ (dataSub_extendR _ _ _
        (dataSub_extendL _ _ _ h)))

theorem toHTML_contains_caption (b : ImageBlock) (r : Option (String → String))
    (cap : String) (hcap : b.caption = some cap) (hne : cap ≠ "") :
    ∃ pre post, (b.toHTML r).data = pre ++ cap.data ++ post := by
  obtain ⟨id, ocap, oalt⟩ := b
  cases ocap with
  | none => simp at hcap
  | some c =>
    simp only [Option.some.injEq] at hcap
    subst hcap
    rw [toHTML_figure_form id c oalt r hne]
    exact dataSub_here _ _ c

theorem toHTML_contains_alt (b : ImageBlock) (r : Option (String → String))
    (a : String) (ha : b.alt = some a) (hne : a ≠ "") :
    ∃ pre post, (b.toHTML r).data = pre ++ a.data ++ post := by
  have haT : orFalsy b.alt (orFalsy b.caption "") = a := by
    rw [ha]
    simp [orFalsy, hne]
  have h2 := toHTML_contains_imgTag b r
    (orFalsy b.alt (orFalsy b.caption "")).data (imgTag_contains_alt _ _ _)
  rwa [haT] at h2

/-- Claim C10: the image renderer inserts the caption, the chosen alt
text, the resolver produced url and the image id into the HTML verbatim
with no escaping; in particular a caption or alt text containing a raw
script tag puts that text into the output unescaped (unlike inline span
text, which is escaped, claim C9). -/
theorem c10_image_html_verbatim (b : ImageBlock)
    (r : Option (String → String)) :
    (∀ cap, b.caption = some cap → cap ≠ "" →
      ∃ pre post, (b.toHTML r).data = pre ++ cap.data ++ post)
    ∧ (∀ a, b.alt = some a → a ≠ "" →
      ∃ pre post, (b.toHTML r).data = pre ++ a.data ++ post)
    ∧ (∀ f, r = some f →
      ∃ pre post, (b.toHTML r).data = pre ++ (f b.imageId).data ++ post)
    ∧ (∃ pre post, (b.toHTML r).data = pre ++ b.imageId.data ++ post)
    ∧ (∀ cap p q, b.caption = some cap →
      cap.data = p ++ "<script>".data ++ q →
      ∃ pre post, (b.toHTML r).data = pre ++ "<script>".data ++ post)
    ∧ (∀ a p q, b.alt = some a →
      a.data = p ++ "<script>".data ++ q →
      ∃ pre post, (b.toHTML r).data = pre ++ "<script>".data ++ post) := by
  refine ⟨fun cap hcap hne => toHTML_contains_caption b r cap hcap hne,
    fun a ha hne => toHTML_contains_alt b r a ha hne, ?_, ?_, ?_, ?_⟩
  · intro f hf
    have hu : resolveUrl r b.imageId = f b.imageId := by rw [hf]; rfl
    have h2 := toHTML_contains_imgTag b r
      (resolveUrl r b.imageId).data (imgTag_contains_url _ _ _)
    rwa [hu] at h2
  · exact toHTML_contains_imgTag b r b.imageId.data
      (imgTag_contains_id _ _ _)
  · intro cap p q hcap hsub
    have hne : cap ≠ "" := by
      intro hh
      subst hh
      have hl := congrArg List.length hsub
      have h8 : ("<script>".data).length = 8 := rfl
      simp [List.length_append, h8] at hl
      omega
    obtain ⟨pre, post, hout⟩ := toHTML_contains_caption b r cap hcap hne
    exact ⟨pre ++ p, q ++ post, by rw [hout, hsub]; simp [List.append_assoc]⟩
  · intro a p q ha hsub
    have hne : a ≠ "" := by
      intro hh
      subst hh
      have hl := congrArg List.length hsub
      have h8 : ("<script>".data).length = 8 := rfl
      simp [List.length_append, h8] at hl
      omega
    obtain ⟨pre, post, hout⟩ := toHTML_contains_alt b r a ha hne
    exact ⟨pre ++ p, q ++ post, by rw [hout, hsub]; simp [List.append_assoc]⟩

/-- Claim C10 witness: concrete image block whose caption carries a raw
script tag; the caption and the script tag appear verbatim in the
rendered HTML. -/
theorem c10_image_html_verbatim_witness :
    (∃ pre post, ((ImageBlock.mk "img1" (some "x<script>y") none).toHTML none).data =
      pre ++ "x<script>y".data ++ post)
    ∧ (∃ pre post, ((ImageBlock.mk "img1" (some "x<script>y") none).toHTML none).data =
      pre ++ "<script>".data ++ post) :=
  ⟨(c10_image_html_verbatim (ImageBlock.mk "img1" (some "x<script>y") none) none).1
      "x<script>y" rfl (by decide),
   (c10_image_html_verbatim (ImageBlock.mk "img1" (some "x<script>y") none) none).2.2.2.2.1
      "x<script>y" "x".data "y".data rfl (by decide)⟩

end Phototext
